import Mathlib

/-
Verification development for the wave repository: a polling bot that queries
the Spotify currently-playing endpoint, downloads a matching audio file and
publishes it to a Telegram chat, deduplicating against a persisted history.

The repository contains four near-duplicate program variants:
  * V1     - the first program in src/main.go (simple logger; 204 is an error)
  * Wave   - the second program in src/main.go (track history, sendAudio)
  * Edit   - the first program in src/unnamed/part_003 (message editing,
             sendOrEditAudio, no history)
  * Upload - the second program in src/unnamed/part_003 (UPLOAD flag gating
             the dedup/upload logic; cleanup inside sendAudio)

External effects (HTTP transport, the yt-dlp process, the file system) are
modelled by explicit environment records holding each call's outcome; the
orchestration functions are translated from the source and return the trace
of performed actions together with the resulting state. The GoJson namespace
models the behavior of Go's encoding/json on map[string]bool values, which
the history store delegates to.
-/

/-- Track as decoded from the Spotify currently-playing response: a name and
an ordered list of artist names. -/
structure Track where
  name : String
  artists : List String
deriving DecidableEq, Repr

/-- Track key as computed in processCurrentTrack, src/main.go line 487:
fmt.Sprintf of the track name, a " - " separator, and the artist names
joined with ", ". -/
def trackKey (t : Track) : String :=
  t.name ++ " - " ++ String.intercalate ", " t.artists

/-- TrackHistory, Go type map[string]bool, modelled as an association list
with unique keys (Go map semantics: reads of absent keys give false). -/
abbrev TrackHistory := List (String × Bool)

/-- Reading history[k] in Go: the value of the entry for k, false if absent. -/
def histGet (h : TrackHistory) (k : String) : Bool :=
  match h with
  | [] => false
  | p :: rest => if p.1 = k then p.2 else histGet rest k

/-- Writing history[k] = v in Go: replace the entry for k, appending it when
absent. -/
def histSet (h : TrackHistory) (k : String) (v : Bool) : TrackHistory :=
  match h with
  | [] => [(k, v)]
  | p :: rest => if p.1 = k then (k, v) :: rest else p :: histSet rest k v

/-- Decoded Telegram API response body (part_003 lines 283-290): the ok flag,
the result's message id, and the error description/code fields. -/
structure TgResp where
  ok : Bool
  messageId : Int
  description : String
  errorCode : Int
deriving DecidableEq, Repr

/-- External actions a poll cycle can perform. -/
inductive CycleAction where
  | download
  | publish
  | saveHistory
  | removeFile (path : String)
deriving DecidableEq, Repr

def audioFileName : String := "audio.mp3"

namespace Wave

/-- Response-classification logic of getCurrentTrack, src/main.go lines
326-360: 204 means no track (nil, nil); other non-200 statuses produce an
error carrying the status code and body; a 200 body is decoded (the decode
argument models json.Decoder.Decode of the anonymous response struct into
a Track). -/
def getCurrentTrack (status : Nat) (body : String)
    (decode : String → Except String Track) : Except String (Option Track) :=
  if status = 204 then .ok none
  else if status ≠ 200 then
    .error ("unexpected status code " ++ toString status ++ ": " ++ body)
  else
    match decode body with
    | .error e => .error ("error decoding response: " ++ e)
    | .ok t => .ok (some t)

/-- Response handling of sendAudio, src/main.go lines 412-423: a transport
error fails the call; a non-200 status fails the call with the status code
and body; any 200 response succeeds (the body is never decoded and the
API-level ok flag is never inspected). The preceding multipart construction
is not modelled; transport is the outcome of httpClient.Do. -/
def sendAudio (transport : Except String (Nat × String)) : Except String Unit :=
  match transport with
  | .error e => .error ("error sending request: " ++ e)
  | .ok (status, body) =>
    if status ≠ 200 then
      .error ("unexpected status code " ++ toString status ++ ": " ++ body)
    else .ok ()

/-- Outcomes of the external calls made by one poll cycle of the Wave
variant. fetch is getCurrentTrack's result; downloadOk is whether the
yt-dlp invocation exited zero; thumb is getThumbnail's result (none when no
thumbnail file was found); tg is the Telegram transport outcome consumed by
sendAudio; saveOk is whether writing the history file succeeded. -/
structure Env where
  fetch : Except String (Option Track)
  downloadOk : Bool
  thumb : Option String
  tg : Except String (Nat × String)
  saveOk : Bool

/-- Result of one poll cycle: the performed external actions, the in-memory
history afterwards, and whether the cycle returned an error. -/
structure CycleResult where
  actions : List CycleAction
  history : TrackHistory
  err : Bool
deriving Repr, DecidableEq

/-- processCurrentTrack, src/main.go lines 475-521. A fetch error aborts;
nil track ends the cycle; a key already in history ends the cycle before
download; a failed download aborts; a failed upload aborts before the
history is touched; on upload success the key is marked in history, the
history is saved (a save failure is only logged, lines 511-513, so
env.saveOk does not influence the result), the audio file is removed and
the thumbnail is removed when one was found. -/
def processCurrentTrack (env : Env) (history : TrackHistory) : CycleResult :=
  match env.fetch with
  | .error _ => ⟨[], history, true⟩
  | .ok none => ⟨[], history, false⟩
  | .ok (some track) =>
    if histGet history (trackKey track) then ⟨[], history, false⟩
    else if env.downloadOk = false then ⟨[.download], history, true⟩
    else
      let thumbnail := env.thumb.getD ""
      match sendAudio env.tg with
      | .error _ => ⟨[.download, .publish], history, true⟩
      | .ok _ =>
        ⟨[.download, .publish, .saveHistory, .removeFile audioFileName] ++
           (if thumbnail ≠ "" then [.removeFile thumbnail] else []),
         histSet history (trackKey track) true, false⟩

end Wave

namespace V1

/-- Response handling of getCurrentPlaying in the first program of
src/main.go, lines 114-146: a 204 status is reported as the error
"not listening music", other non-200 statuses as an error with the status
code; a 200 body is decoded into the Song structure (here reduced to the
name/artists a Track carries). -/
def getCurrentPlaying (status : Nat) (body : String)
    (decode : String → Except String Track) : Except String Track :=
  if status = 204 then .error "not listening music"
  else if status ≠ 200 then
    .error ("get current playing request failed with status code: " ++
      toString status)
  else
    match decode body with
    | .error e => .error ("failed to unmarshal response body with error: " ++ e)
    | .ok s => .ok s

end V1

namespace Edit

/-- Response handling of sendOrEditAudio, part_003 lines 214-303: a
transport error fails the call; a non-200 status fails with the status code
and body; a 200 body that fails to decode fails the call; a decoded
response with ok=false fails carrying the description and error code; on
success the message id from the response is remembered (second component of
the result; it is left unchanged on every error path). The decode argument
models json.Decoder.Decode of the body into respData. -/
def sendOrEditAudio (messageID : Option Int)
    (transport : Except String (Nat × String))
    (decode : String → Except String TgResp) :
    Except String Unit × Option Int :=
  match transport with
  | .error e => (.error ("error sending request: " ++ e), messageID)
  | .ok (status, body) =>
    if status ≠ 200 then
      (.error ("unexpected status code " ++ toString status ++ ": " ++ body),
       messageID)
    else
      match decode body with
      | .error e => (.error ("failed to decode message_id: " ++ e), messageID)
      | .ok r =>
        if r.ok = false then
          (.error ("request failed: " ++ r.description ++ " (error code: " ++
             toString r.errorCode ++ ")"), messageID)
        else (.ok (), some r.messageId)

/-- Outcomes of the external calls of one poll cycle of the Edit variant. -/
structure Env where
  fetch : Except String (Option Track)
  downloadOk : Bool
  thumb : Option String
  tg : Except String (Nat × String)
  tgDecode : String → Except String TgResp

/-- Result of one Edit-variant cycle: performed actions, the remembered
message id afterwards, and whether the cycle returned an error. -/
structure CycleResult where
  actions : List CycleAction
  messageID : Option Int
  err : Bool

/-- processCurrentTrack of the Edit variant, part_003 lines 319-359: no
history check; download, thumbnail probe, sendOrEditAudio; on success the
audio file is removed and the thumbnail is removed when one was found. -/
def processCurrentTrack (env : Env) (messageID : Option Int) : CycleResult :=
  match env.fetch with
  | .error _ => ⟨[], messageID, true⟩
  | .ok none => ⟨[], messageID, false⟩
  | .ok (some _track) =>
    if env.downloadOk = false then ⟨[.download], messageID, true⟩
    else
      let thumbnail := env.thumb.getD ""
      match sendOrEditAudio messageID env.tg env.tgDecode with
      | (.error _, mid) => ⟨[.download, .publish], mid, true⟩
      | (.ok _, mid) =>
        ⟨[.download, .publish, .removeFile audioFileName] ++
           (if thumbnail ≠ "" then [.removeFile thumbnail] else []),
         mid, false⟩

end Edit

namespace Upload

def audioFile : String := "audio.mp3"

/-- Song key of the Upload variant, part_003 lines 428-429 and 468-476:
getArtists joins the artist names with a single space, and the key is the
name, " - ", and that joined artist string. -/
def songKey (t : Track) : String :=
  t.name ++ " - " ++ String.intercalate " " t.artists

/-- Response handling of getCurrentPlaying of the Upload variant, part_003
lines 544-577: 204 is the error "not listening to music"; other non-200
statuses fail with status code and body; a 200 body is decoded. -/
def getCurrentPlaying (status : Nat) (body : String)
    (decode : String → Except String Track) : Except String Track :=
  if status = 204 then .error "not listening to music"
  else if status ≠ 200 then
    .error ("get current playing request failed with status code " ++
      toString status ++ ": " ++ body)
  else
    match decode body with
    | .error e => .error ("failed to unmarshal response body: " ++ e)
    | .ok s => .ok s

/-- addFileToWriter, part_003 lines 640-655: opening the file fails when no
file of that path exists. The file system is modelled as the list of
existing file paths. -/
def addFileToWriter (fs : List String) (path : String) : Except String Unit :=
  if path ∈ fs then .ok ()
  else .error ("open " ++ path ++ ": no such file or directory")

/-- os.Remove on the modelled file system: removing a path that names no
existing file fails (in particular the empty path, which never names a
file); otherwise the file is removed. -/
def removeFile (fs : List String) (path : String) :
    Except String (List String) :=
  if path ∈ fs then .ok (fs.filter (fun q => decide (q ≠ path)))
  else .error ("remove " ++ path ++ ": no such file or directory")

/-- sendAudio of the Upload variant, part_003 lines 594-638: add the audio
file and (when the thumbnail path is nonempty) the thumbnail to the form;
a transport error or non-200 status fails the call; on a 200 status the
audio file is removed and then the thumbnail path is removed
unconditionally - also when it is the empty string, in which case the
remove fails and sendAudio returns its error. -/
def sendAudio (fs : List String) (transport : Except String (Nat × String))
    (filePath thumbnail : String) : Except String (List String) :=
  match addFileToWriter fs filePath with
  | .error e => .error e
  | .ok _ =>
    match (if thumbnail ≠ "" then addFileToWriter fs thumbnail else .ok ()) with
    | .error e => .error e
    | .ok _ =>
      match transport with
      | .error e => .error e
      | .ok (status, body) =>
        if status ≠ 200 then
          .error ("telegram api request failed with status " ++
            toString status ++ ": " ++ body)
        else
          match removeFile fs filePath with
          | .error e => .error e
          | .ok fs1 =>
            match removeFile fs1 thumbnail with
            | .error e => .error e
            | .ok fs2 => .ok fs2

/-- Outcomes of the external calls of one cycle of the Upload variant.
fetch is getCurrentPlaying's result (204 already surfaces as an error);
upload is the UPLOAD environment variable; load is loadData's result;
thumb is getThumbnail's result; tg the Telegram transport outcome; saveOk
whether writing data.json succeeded (only logged). -/
structure Env where
  fetch : Except String Track
  upload : String
  load : Except String TrackHistory
  downloadOk : Bool
  thumb : Option String
  tg : Except String (Nat × String)
  saveOk : Bool

/-- Result of one Upload-variant cycle: performed actions, the mapping
passed to saveData when it was invoked, and whether the cycle returned an
error. -/
structure CycleResult where
  actions : List CycleAction
  savedData : Option TrackHistory
  err : Bool
deriving DecidableEq, Repr

/-- processCurrentPlayingSong, part_003 lines 422-466. When UPLOAD is not
"true" the cycle only logs the key. Otherwise: load data.json (a load
failure aborts), skip when the key is marked, download (failure aborts),
probe the thumbnail, call sendAudio on the file system containing the audio
file and the found thumbnail (its failure aborts before the data map is
touched), then mark the key and save (a save failure is only logged). -/
def processCurrentPlayingSong (env : Env) : CycleResult :=
  match env.fetch with
  | .error _ => ⟨[], none, true⟩
  | .ok song =>
    if env.upload = "true" then
      match env.load with
      | .error _ => ⟨[], none, true⟩
      | .ok dataMap =>
        if histGet dataMap (songKey song) then ⟨[], none, false⟩
        else if env.downloadOk = false then ⟨[.download], none, true⟩
        else
          let thumbnail := env.thumb.getD ""
          let fs := audioFile :: env.thumb.toList
          match sendAudio fs env.tg audioFile thumbnail with
          | .error _ => ⟨[.download, .publish], none, true⟩
          | .ok _ =>
            ⟨[.download, .publish, .saveHistory],
             some (histSet dataMap (songKey song) true), false⟩
    else ⟨[], none, false⟩

end Upload

namespace GoJson

/-- Lowercase hexadecimal digit character, as Go's encoding/json emits in
escape sequences. -/
def hexDigit (n : Nat) : Char :=
  if n < 10 then Char.ofNat (48 + n) else Char.ofNat (87 + n)

/-- Numeric value of a hexadecimal digit character. -/
def hexVal (c : Char) : Option Nat :=
  if '0' ≤ c ∧ c ≤ '9' then some (c.toNat - 48)
  else if 'a' ≤ c ∧ c ≤ 'f' then some (c.toNat - 87)
  else if 'A' ≤ c ∧ c ≤ 'F' then some (c.toNat - 55)
  else none

/-- Character for a decoded code point; invalid code points (lone
surrogates) decode to the replacement character, as in Go. -/
def charOfCodepoint (n : Nat) : Char :=
  if n.isValidChar then Char.ofNat n else '�'

/-- Short backslash escapes accepted inside JSON strings. -/
def unescapeChar (e : Char) : Option Char :=
  if e = '"' then some '"'
  else if e = '\\' then some '\\'
  else if e = '/' then some '/'
  else if e = 'b' then some (Char.ofNat 8)
  else if e = 'f' then some (Char.ofNat 12)
  else if e = 'n' then some '\n'
  else if e = 'r' then some '\x0d'
  else if e = 't' then some '\t'
  else none

/-- Decoding of one escape sequence after the backslash: either a
u-escape of four hexadecimal digits or a short escape. -/
def readEscape : List Char → Option (Char × List Char)
  | 'u' :: h1 :: h2 :: h3 :: h4 :: rest =>
    match hexVal h1, hexVal h2, hexVal h3, hexVal h4 with
    | some d1, some d2, some d3, some d4 =>
      some (charOfCodepoint (4096 * d1 + 256 * d2 + 16 * d3 + d4), rest)
    | _, _, _, _ => none
  | e :: rest =>
    match unescapeChar e with
    | some c => some (c, rest)
    | none => none
  | [] => none

/-- Parse the remainder of a JSON string after the opening quote, returning
the decoded characters and the input after the closing quote; unescaped
control characters are rejected, as in Go's decoder. The fuel argument
bounds the recursion (one unit per decoded character). -/
def parseStringF : Nat → List Char → Option (List Char × List Char)
  | 0, _ => none
  | _ + 1, [] => none
  | fuel + 1, c :: cs =>
    if c = '"' then some ([], cs)
    else if c = '\\' then
      match readEscape cs with
      | some (c', rest) =>
        match parseStringF fuel rest with
        | some (l, r) => some (c' :: l, r)
        | none => none
      | none => none
    else if c.toNat < 32 then none
    else
      match parseStringF fuel cs with
      | some (l, r) => some (c :: l, r)
      | none => none

/-- Parse a JSON string body with sufficient fuel (each decoded character
consumes at least one input character). -/
def parseStringL (cs : List Char) : Option (List Char × List Char) :=
  parseStringF (cs.length + 1) cs

/-- Escaping of one character inside a JSON string, following Go's
encoding/json string encoder with its default HTML escaping: quote and
backslash are backslash-escaped; newline, carriage return and tab use their
short escapes; other control characters use a lowercase u-escape; the
HTML-sensitive characters and the line and paragraph separators use fixed
u-escapes; every other character is emitted as itself. -/
def escapeChar (c : Char) : List Char :=
  if c = '"' then ['\\', '"']
  else if c = '\\' then ['\\', '\\']
  else if c = '\n' then ['\\', 'n']
  else if c = '\x0d' then ['\\', 'r']
  else if c = '\t' then ['\\', 't']
  else if c.toNat < 32 then
    ['\\', 'u', '0', '0', hexDigit (c.toNat / 16), hexDigit (c.toNat % 16)]
  else if c = '<' then ['\\', 'u', '0', '0', '3', 'c']
  else if c = '>' then ['\\', 'u', '0', '0', '3', 'e']
  else if c = '&' then ['\\', 'u', '0', '0', '2', '6']
  else if c.toNat = 8232 then ['\\', 'u', '2', '0', '2', '8']
  else if c.toNat = 8233 then ['\\', 'u', '2', '0', '2', '9']
  else [c]

/-- Escaping of a whole character sequence. -/
def escapeList (l : List Char) : List Char :=
  l.foldr (fun c acc => escapeChar c ++ acc) []

/-- JSON whitespace accepted between tokens. -/
def isWs (c : Char) : Bool :=
  c = ' ' || c = '\t' || c = '\n' || c = '\x0d'

/-- Skip leading whitespace. -/
def skipWs : List Char → List Char
  | [] => []
  | c :: cs => if isWs c then skipWs cs else c :: cs

/-- Decode one member value into a bool element: the boolean literals, and
the literal null, which Go's decoder accepts as a no-op on the freshly
allocated zero element, storing false with no error. -/
def parseBoolL : List Char → Option (Bool × List Char)
  | 't' :: 'r' :: 'u' :: 'e' :: cs => some (true, cs)
  | 'f' :: 'a' :: 'l' :: 's' :: 'e' :: cs => some (false, cs)
  | 'n' :: 'u' :: 'l' :: 'l' :: cs => some (false, cs)
  | _ => none

/-- Parse one or more object members starting at a member's opening quote;
the fuel bounds the number of members. -/
def parseMembers : Nat → List Char → Option (List (String × Bool) × List Char)
  | 0, _ => none
  | fuel + 1, cs =>
    match cs with
    | '"' :: cs1 =>
      match parseStringL cs1 with
      | none => none
      | some (key, cs2) =>
        match skipWs cs2 with
        | ':' :: cs3 =>
          match parseBoolL (skipWs cs3) with
          | none => none
          | some (v, cs4) =>
            match skipWs cs4 with
            | ',' :: cs5 =>
              match parseMembers fuel (skipWs cs5) with
              | none => none
              | some (rest, cs6) => some ((String.mk key, v) :: rest, cs6)
            | '}' :: cs5 => some ([(String.mk key, v)], cs5)
            | _ => none
        | _ => none
    | _ => none

/-- Parse a JSON object with boolean values from the head of the input,
returning the members in order and the unconsumed remainder (the stream
decoder leaves trailing input unread). A top-level literal null is also
accepted: Go's Decode sets the map to nil with no error, and a nil map
reads as the empty mapping. -/
def parseObject (fuel : Nat) (cs : List Char) :
    Option (List (String × Bool) × List Char) :=
  match skipWs cs with
  | '{' :: cs1 =>
    match skipWs cs1 with
    | '}' :: cs2 => some ([], cs2)
    | cs2 => parseMembers fuel cs2
  | 'n' :: 'u' :: 'l' :: 'l' :: cs1 => some ([], cs1)
  | _ => none

/-- Decoding of the history file content by json.Decoder.Decode into a
map[string]bool, fuelled by the input length (one member consumes at least
one input character). Accepts objects with boolean or null member values
and the top-level null, as Go does. -/
def decodeObject (cs : List Char) : Option (List (String × Bool) × List Char) :=
  parseObject (cs.length + 1) cs

/-- JSON rendering of a boolean. -/
def encodeBool (b : Bool) : List Char :=
  if b then ['t', 'r', 'u', 'e'] else ['f', 'a', 'l', 's', 'e']

/-- JSON rendering of a string: quoted and escaped. -/
def encodeString (s : String) : List Char :=
  '"' :: (escapeList s.data ++ ['"'])

/-- JSON rendering of one object member, key then colon then value. -/
def encodeMember (p : String × Bool) : List Char :=
  encodeString p.1 ++ (':' :: encodeBool p.2)

/-- JSON rendering of the comma-separated member sequence. -/
def encodeMembers : List (String × Bool) → List Char
  | [] => []
  | [p] => encodeMember p
  | p :: rest => encodeMember p ++ (',' :: encodeMembers rest)

/-- Byte-order comparison of character sequences (UTF-8 byte order agrees
with code-point order), as Go's sort over map keys uses. -/
def charListLe : List Char → List Char → Bool
  | [], _ => true
  | _ :: _, [] => false
  | a :: as, b :: bs =>
    if a.toNat < b.toNat then true
    else if b.toNat < a.toNat then false
    else charListLe as bs

/-- String comparison in Go's map-key order. -/
def strLe (a b : String) : Bool := charListLe a.data b.data

/-- Insertion into a key-sorted association list. -/
def insertSorted (p : String × Bool) :
    List (String × Bool) → List (String × Bool)
  | [] => [p]
  | q :: rest =>
    if strLe p.1 q.1 then p :: q :: rest else q :: insertSorted p rest

/-- Sorting of the members by key, as Go's encoding/json does for maps. -/
def sortKeys : List (String × Bool) → List (String × Bool)
  | [] => []
  | p :: rest => insertSorted p (sortKeys rest)

/-- Encoding of a map[string]bool by Go's json.Encoder.Encode: an object
with the members in ascending key order, followed by a newline. -/
def encodeHistory (m : List (String × Bool)) : List Char :=
  '{' :: (encodeMembers (sortKeys m) ++ ['}', '\n'])

end GoJson

/-- loadTrackHistory, src/main.go lines 442-459 (and loadData, part_003
lines 478-495). The argument is the content of the history file, none when
the file does not exist: a missing file yields the empty mapping; content
whose decoding stops at true end-of-input (only whitespace, in particular
an empty file - Go's io.EOF) also yields the empty mapping; any other
decode failure is an error. A top-level null and null member values are
decode successes, as in Go (nil map and zero-valued elements). Decoded
members are inserted into the initially empty map in order (a later
duplicate key wins, as in Go). -/
def loadTrackHistory (file : Option (List Char)) : Except String TrackHistory :=
  match file with
  | none => .ok []
  | some cs =>
    if GoJson.skipWs cs = [] then .ok []
    else
      match GoJson.decodeObject cs with
      | some (members, _) =>
        .ok (members.foldl (fun m p => histSet m p.1 p.2) [])
      | none => .error "error decoding JSON"

/-- saveTrackHistory, src/main.go lines 461-473: the content written to the
(recreated) history file is the json.Encoder.Encode serialization of the
mapping. -/
def saveTrackHistory (history : TrackHistory) : List Char :=
  GoJson.encodeHistory history

theorem histGet_histSet_self (h : TrackHistory) (k : String) (v : Bool) :
    histGet (histSet h k v) k = v := by
  induction h with
  | nil => simp [histGet, histSet]
  | cons p rest ih =>
    by_cases hp : p.1 = k
    · simp [histGet, histSet, hp]
    · simp [histGet, histSet, hp, ih]

/-- C3 counterexample: two distinct tracks (different artist sequences)
whose derived keys coincide, because joining artists with ", " can collide
with a ", " occurring inside a single artist name. -/
theorem trackKey_collision :
    trackKey ⟨"A", ["B", "C"]⟩ = trackKey ⟨"A", ["B, C"]⟩ ∧
    Track.mk "A" ["B", "C"] ≠ Track.mk "A" ["B, C"] := by
  constructor
  · rfl
  · decide

/-- C3 (amended): tracks with identical name and identical artist sequence
derive equal keys, but the converse fails: there are distinct tracks whose
keys coincide, so a differing artist sequence does not always yield a
different key. -/
theorem trackKey_eq_of_name_artists_eq :
    (∀ t1 t2 : Track, t1.name = t2.name → t1.artists = t2.artists →
      trackKey t1 = trackKey t2) ∧
    (∃ t1 t2 : Track, t1 ≠ t2 ∧ trackKey t1 = trackKey t2) := by
  constructor
  · intro t1 t2 hn ha
    simp [trackKey, hn, ha]
  · exact ⟨⟨"A", ["B", "C"]⟩, ⟨"A", ["B, C"]⟩, by decide, rfl⟩

/-- Witness for C3's amended theorem at concrete tracks. -/
theorem trackKey_eq_of_name_artists_eq_witness :
    trackKey ⟨"Song A", ["Artist X"]⟩ = trackKey ⟨"Song A", ["Artist X"]⟩ :=
  trackKey_eq_of_name_artists_eq.1 ⟨"Song A", ["Artist X"]⟩
    ⟨"Song A", ["Artist X"]⟩ rfl rfl

/-- C1: in any cycle where the track was fetched, was not yet in history,
the download succeeded and the publish step failed, the in-memory history is
unchanged, the history file is not rewritten (no saveHistory action), the
track's key is still unmarked, and the cycle returns an error, so the track
is retried on a later tick. -/
theorem publish_failure_leaves_history_unchanged
    (env : Wave.Env) (history : TrackHistory) (t : Track) (e : String)
    (hf : env.fetch = .ok (some t))
    (hh : histGet history (trackKey t) = false)
    (hd : env.downloadOk = true)
    (hp : Wave.sendAudio env.tg = .error e) :
    (Wave.processCurrentTrack env history).history = history ∧
    CycleAction.saveHistory ∉ (Wave.processCurrentTrack env history).actions ∧
    histGet (Wave.processCurrentTrack env history).history (trackKey t) = false ∧
    (Wave.processCurrentTrack env history).err = true := by
  simp [Wave.processCurrentTrack, hf, hh, hd, hp]

/-- Witness for C1 at a concrete environment and empty history. -/
theorem publish_failure_leaves_history_unchanged_witness :
    (Wave.processCurrentTrack
      ⟨.ok (some ⟨"Song A", ["Artist X"]⟩), true, none, .ok (500, "oops"), true⟩
      []).history = [] ∧
    CycleAction.saveHistory ∉ (Wave.processCurrentTrack
      ⟨.ok (some ⟨"Song A", ["Artist X"]⟩), true, none, .ok (500, "oops"), true⟩
      []).actions ∧
    histGet (Wave.processCurrentTrack
      ⟨.ok (some ⟨"Song A", ["Artist X"]⟩), true, none, .ok (500, "oops"), true⟩
      []).history (trackKey ⟨"Song A", ["Artist X"]⟩) = false ∧
    (Wave.processCurrentTrack
      ⟨.ok (some ⟨"Song A", ["Artist X"]⟩), true, none, .ok (500, "oops"), true⟩
      []).err = true :=
  publish_failure_leaves_history_unchanged _ _ _
    "unexpected status code 500: oops" rfl rfl rfl rfl

/-- C4: a cycle whose fetched track's key is already marked in the history
mapping ends right after the history check: no action at all is performed
(in particular neither acquisition nor publish), the history is unchanged
and no error is returned. The second conjunct states the same for the
Upload variant (history enabled there means UPLOAD set to "true"). -/
theorem already_processed_track_is_skipped :
    (∀ (env : Wave.Env) (history : TrackHistory) (t : Track),
      env.fetch = .ok (some t) → histGet history (trackKey t) = true →
      Wave.processCurrentTrack env history = ⟨[], history, false⟩) ∧
    (∀ (env : Upload.Env) (song : Track) (data : TrackHistory),
      env.fetch = .ok song → env.upload = "true" → env.load = .ok data →
      histGet data (Upload.songKey song) = true →
      Upload.processCurrentPlayingSong env = ⟨[], none, false⟩) := by
  constructor
  · intro env history t hf hh
    simp [Wave.processCurrentTrack, hf, hh]
  · intro env song data hf hu hl hh
    simp [Upload.processCurrentPlayingSong, hf, hu, hl, hh]

/-- Witness for C4 at concrete environments with the key already present. -/
theorem already_processed_track_is_skipped_witness :
    Wave.processCurrentTrack
      ⟨.ok (some ⟨"Song A", ["Artist X"]⟩), true, none, .ok (200, "ok"), true⟩
      [("Song A - Artist X", true)] =
      ⟨[], [("Song A - Artist X", true)], false⟩ ∧
    Upload.processCurrentPlayingSong
      ⟨.ok ⟨"Song A", ["Artist X"]⟩, "true", .ok [("Song A - Artist X", true)],
       true, none, .ok (200, "ok"), true⟩ = ⟨[], none, false⟩ :=
  ⟨already_processed_track_is_skipped.1 _ _ ⟨"Song A", ["Artist X"]⟩ rfl rfl,
   already_processed_track_is_skipped.2 _ ⟨"Song A", ["Artist X"]⟩ _
     rfl rfl rfl rfl⟩

/-- C9: when the publish step succeeds and the subsequent history save
fails, the cycle still completes without an error, the save was attempted,
and the in-memory history keeps the track's key marked true. -/
theorem save_failure_is_nonfatal
    (env : Wave.Env) (history : TrackHistory) (t : Track)
    (hf : env.fetch = .ok (some t))
    (hh : histGet history (trackKey t) = false)
    (hd : env.downloadOk = true)
    (hp : Wave.sendAudio env.tg = .ok ())
    (_hs : env.saveOk = false) :
    (Wave.processCurrentTrack env history).err = false ∧
    CycleAction.saveHistory ∈ (Wave.processCurrentTrack env history).actions ∧
    histGet (Wave.processCurrentTrack env history).history (trackKey t) = true := by
  refine ⟨?_, ?_, ?_⟩ <;>
    simp [Wave.processCurrentTrack, hf, hh, hd, hp, histGet_histSet_self]

/-- Witness for C9 at a concrete environment with a failing save. -/
theorem save_failure_is_nonfatal_witness :
    (Wave.processCurrentTrack
      ⟨.ok (some ⟨"Song A", ["Artist X"]⟩), true, none, .ok (200, "ok"), false⟩
      []).err = false ∧
    CycleAction.saveHistory ∈ (Wave.processCurrentTrack
      ⟨.ok (some ⟨"Song A", ["Artist X"]⟩), true, none, .ok (200, "ok"), false⟩
      []).actions ∧
    histGet (Wave.processCurrentTrack
      ⟨.ok (some ⟨"Song A", ["Artist X"]⟩), true, none, .ok (200, "ok"), false⟩
      []).history (trackKey ⟨"Song A", ["Artist X"]⟩) = true :=
  save_failure_is_nonfatal _ _ _ rfl rfl rfl rfl rfl

/-- C2 counterexample: in the first src/main.go program the now-playing
query signals a 204 response as an error ("not listening music"), not as an
explicit nothing-playing result. -/
theorem getCurrentPlaying_204_is_error :
    V1.getCurrentPlaying 204 "" (fun _ => .error "") =
      .error "not listening music" := rfl

/-- C2 (amended): in the getCurrentTrack-based variants a 204 response
yields a nil track and no error, and a status other than 200 and 204 yields
the error carrying the status code and body; in the getCurrentPlaying-based
variants (first src/main.go program and the Upload variant) a 204 response
is instead reported as an error. -/
theorem nothing_playing_on_204
    (status : Nat) (body : String) (decode : String → Except String Track)
    (h200 : status ≠ 200) (h204 : status ≠ 204) :
    Wave.getCurrentTrack 204 body decode = .ok none ∧
    Wave.getCurrentTrack status body decode =
      .error ("unexpected status code " ++ toString status ++ ": " ++ body) ∧
    V1.getCurrentPlaying 204 body decode = .error "not listening music" ∧
    Upload.getCurrentPlaying 204 body decode =
      .error "not listening to music" := by
  refine ⟨?_, ?_, ?_, ?_⟩
  · simp [Wave.getCurrentTrack]
  · simp [Wave.getCurrentTrack, h200, h204]
  · simp [V1.getCurrentPlaying]
  · simp [Upload.getCurrentPlaying]

/-- Witness for C2's amended theorem at status 500. -/
theorem nothing_playing_on_204_witness :
    Wave.getCurrentTrack 204 "" (fun _ => .error "") = .ok none ∧
    Wave.getCurrentTrack 500 "" (fun _ => .error "") =
      .error ("unexpected status code " ++ toString 500 ++ ": " ++ "") ∧
    V1.getCurrentPlaying 204 "" (fun _ => .error "") =
      .error "not listening music" ∧
    Upload.getCurrentPlaying 204 "" (fun _ => .error "") =
      .error "not listening to music" :=
  nothing_playing_on_204 500 "" (fun _ => .error "")
    (by decide) (by decide)

/-- C7 counterexample: the non-editing sendAudio of src/main.go succeeds on
any HTTP 200 response without decoding the body, so a response whose
API-level ok flag is false is still reported as success. -/
theorem sendAudio_ignores_ok_flag :
    Wave.sendAudio
      (.ok (200, "\x7b\"ok\":false,\"error_code\":400\x7d")) = .ok () := rfl

/-- C7 (amended): the editing variant's publish (sendOrEditAudio) succeeds
exactly when the transport delivered HTTP 200 and the decoded response
carries ok=true; a transport error, a non-200 status, an undecodable body
and a decoded not-ok response (whose error carries the description and
error code) each fail it, and on success the returned message id is
remembered. The non-editing sendAudio of src/main.go instead succeeds
exactly when the status is 200; the ok flag is never inspected. -/
theorem publish_success_conditions :
    (∀ (mid : Option Int) (status : Nat) (body : String)
       (decode : String → Except String TgResp),
      (Edit.sendOrEditAudio mid (.ok (status, body)) decode).1 = .ok () ↔
        status = 200 ∧ ∃ r, decode body = .ok r ∧ r.ok = true) ∧
    (∀ (mid : Option Int) (body : String)
       (decode : String → Except String TgResp) (r : TgResp),
      decode body = .ok r → r.ok = true →
      Edit.sendOrEditAudio mid (.ok (200, body)) decode =
        (.ok (), some r.messageId)) ∧
    (∀ (mid : Option Int) (body : String)
       (decode : String → Except String TgResp) (r : TgResp),
      decode body = .ok r → r.ok = false →
      Edit.sendOrEditAudio mid (.ok (200, body)) decode =
        (.error ("request failed: " ++ r.description ++ " (error code: " ++
          toString r.errorCode ++ ")"), mid)) ∧
    (∀ (mid : Option Int) (e : String)
       (decode : String → Except String TgResp),
      Edit.sendOrEditAudio mid (.error e) decode =
        (.error ("error sending request: " ++ e), mid)) ∧
    (∀ (status : Nat) (body : String),
      Wave.sendAudio (.ok (status, body)) = .ok () ↔ status = 200) := by
  refine ⟨?_, ?_, ?_, ?_, ?_⟩
  · intro mid status body decode
    constructor
    · intro h
      by_cases hs : status = 200
      · subst hs
        simp only [Edit.sendOrEditAudio, ne_eq, not_true_eq_false,
          if_false, reduceIte] at h
        cases hdec : decode body with
        | error e => rw [hdec] at h; simp at h
        | ok r =>
          rw [hdec] at h
          by_cases hok : r.ok = false
          · simp [hok] at h
          · exact ⟨rfl, r, rfl, by simpa using hok⟩
      · simp [Edit.sendOrEditAudio, hs] at h
    · rintro ⟨hs, r, hdec, hok⟩
      subst hs
      simp [Edit.sendOrEditAudio, hdec, hok]
  · intro mid body decode r hdec hok
    simp [Edit.sendOrEditAudio, hdec, hok]
  · intro mid body decode r hdec hok
    simp [Edit.sendOrEditAudio, hdec, hok]
  · intro mid e decode
    simp [Edit.sendOrEditAudio]
  · intro status body
    constructor
    · intro h
      by_cases hs : status = 200
      · exact hs
      · simp [Wave.sendAudio, hs] at h
    · intro hs
      subst hs
      simp [Wave.sendAudio]

/-- Witness for C7's amended theorem: a decoded ok response at status 200
succeeds and remembers the message id. -/
theorem publish_success_conditions_witness :
    Edit.sendOrEditAudio none (.ok (200, "resp"))
      (fun _ => .ok ⟨true, 7, "", 0⟩) = (.ok (), some 7) :=
  publish_success_conditions.2.1 none "resp"
    (fun _ => .ok ⟨true, 7, "", 0⟩) ⟨true, 7, "", 0⟩ rfl rfl

/-- C8: a cycle that completes successfully (the publish call succeeded)
removes the local audio file, and removes the thumbnail file when one was
found; the audio removal does not depend on whether a thumbnail was found
(the environment's thumb component is arbitrary). Stated for the Wave
variant, the Edit variant, and - where the cleanup lives inside sendAudio -
the Upload variant, whose successful sendAudio leaves neither the audio
file nor the thumbnail path in the file system. -/
theorem successful_cycle_removes_files :
    (∀ (env : Wave.Env) (history : TrackHistory) (t : Track),
      env.fetch = .ok (some t) → histGet history (trackKey t) = false →
      env.downloadOk = true → Wave.sendAudio env.tg = .ok () →
      (Wave.processCurrentTrack env history).err = false ∧
      CycleAction.removeFile audioFileName ∈
        (Wave.processCurrentTrack env history).actions ∧
      (∀ p, env.thumb = some p → p ≠ "" →
        CycleAction.removeFile p ∈
          (Wave.processCurrentTrack env history).actions)) ∧
    (∀ (env : Edit.Env) (mid : Option Int) (t : Track),
      env.fetch = .ok (some t) → env.downloadOk = true →
      (Edit.sendOrEditAudio mid env.tg env.tgDecode).1 = .ok () →
      (Edit.processCurrentTrack env mid).err = false ∧
      CycleAction.removeFile audioFileName ∈
        (Edit.processCurrentTrack env mid).actions ∧
      (∀ p, env.thumb = some p → p ≠ "" →
        CycleAction.removeFile p ∈
          (Edit.processCurrentTrack env mid).actions)) ∧
    (∀ (fs : List String) (tg : Except String (Nat × String))
       (fp th : String) (fs' : List String),
      Upload.sendAudio fs tg fp th = .ok fs' →
      fp ∉ fs' ∧ th ∉ fs') := by
  refine ⟨?_, ?_, ?_⟩
  · intro env history t hf hh hd hp
    refine ⟨?_, ?_, ?_⟩
    · simp [Wave.processCurrentTrack, hf, hh, hd, hp]
    · simp [Wave.processCurrentTrack, hf, hh, hd, hp]
    · intro p hpth hpne
      simp [Wave.processCurrentTrack, hf, hh, hd, hp, hpth, hpne]
  · intro env mid t hf hd hp
    rcases hsd : Edit.sendOrEditAudio mid env.tg env.tgDecode with ⟨res, mid'⟩
    rw [hsd] at hp
    simp only at hp
    subst hp
    refine ⟨?_, ?_, ?_⟩
    · simp [Edit.processCurrentTrack, hf, hd, hsd]
    · simp [Edit.processCurrentTrack, hf, hd, hsd]
    · intro p hpth hpne
      simp [Edit.processCurrentTrack, hf, hd, hsd, hpth, hpne]
  · intro fs tg fp th fs' h
    simp only [Upload.sendAudio, Upload.addFileToWriter, Upload.removeFile] at h
    repeat' split at h
    all_goals (try exact (Except.noConfusion h))
    rename_i h1 h2 h3 h4 h5
    injection h with h
    subst h
    split at h2
    · injection h2 with h2
      subst h2
      split at h5
      · injection h5 with h5
        subst h5
        refine ⟨fun hmem => ?_, fun hmem => ?_⟩
        · have hx := (List.mem_filter.mp (List.mem_filter.mp hmem).1).2
          simp at hx
        · have hx := (List.mem_filter.mp hmem).2
          simp at hx
      · exact Except.noConfusion h5
    · exact Except.noConfusion h2

/-- Witness for C8: a concrete successful Wave cycle with no thumbnail
found still removes the audio file. -/
theorem successful_cycle_removes_files_witness :
    (Wave.processCurrentTrack
      ⟨.ok (some ⟨"Song A", ["Artist X"]⟩), true, none, .ok (200, "ok"), true⟩
      []).err = false ∧
    CycleAction.removeFile audioFileName ∈
      (Wave.processCurrentTrack
        ⟨.ok (some ⟨"Song A", ["Artist X"]⟩), true, none, .ok (200, "ok"), true⟩
        []).actions ∧
    (∀ p, (Wave.Env.mk (.ok (some ⟨"Song A", ["Artist X"]⟩)) true none
        (.ok (200, "ok")) true).thumb = some p → p ≠ "" →
      CycleAction.removeFile p ∈
        (Wave.processCurrentTrack
          ⟨.ok (some ⟨"Song A", ["Artist X"]⟩), true, none, .ok (200, "ok"), true⟩
          []).actions) :=
  successful_cycle_removes_files.1 _ [] ⟨"Song A", ["Artist X"]⟩ rfl rfl rfl rfl

/-- C10: in the Upload variant, when no thumbnail was found the thumbnail
path is the empty string; sendAudio then fails even on an HTTP 200 upload,
because os.Remove of the empty path fails after the audio file was removed.
Consequently the cycle returns the error, saveData is never invoked, the
key stays unmarked, and the same track is downloaded and uploaded again on
each later tick while it plays. -/
theorem missing_thumbnail_fails_upload_cycle :
    (∀ (fs : List String) (b : String),
      "" ∉ fs → Upload.audioFile ∈ fs →
      ∃ e, Upload.sendAudio fs (.ok (200, b)) Upload.audioFile "" =
        .error e) ∧
    (∀ (env : Upload.Env) (song : Track) (data : TrackHistory) (b : String),
      env.fetch = .ok song → env.upload = "true" → env.load = .ok data →
      histGet data (Upload.songKey song) = false → env.downloadOk = true →
      env.thumb = none → env.tg = .ok (200, b) →
      (Upload.processCurrentPlayingSong env).err = true ∧
      (Upload.processCurrentPlayingSong env).savedData = none ∧
      CycleAction.download ∈ (Upload.processCurrentPlayingSong env).actions ∧
      CycleAction.publish ∈ (Upload.processCurrentPlayingSong env).actions) := by
  have hsend : ∀ (fs : List String) (b : String),
      "" ∉ fs → Upload.audioFile ∈ fs →
      ∃ e, Upload.sendAudio fs (.ok (200, b)) Upload.audioFile "" =
        .error e := by
    intro fs b hempty haudio
    simp [Upload.sendAudio, Upload.addFileToWriter, Upload.removeFile,
      haudio, hempty]
  refine ⟨hsend, ?_⟩
  intro env song data b hf hu hl hh hd hth htg
  have hfs : "" ∉ [Upload.audioFile] := by decide
  have haud : Upload.audioFile ∈ [Upload.audioFile] := by decide
  rcases hsend [Upload.audioFile] b hfs haud with ⟨e, hse⟩
  have hfs' : Upload.audioFile :: env.thumb.toList = [Upload.audioFile] := by
    rw [hth]; rfl
  refine ⟨?_, ?_, ?_, ?_⟩ <;>
    simp [Upload.processCurrentPlayingSong, hf, hu, hl, hh, hd, hth, htg,
      hfs' ▸ hse, hse]

/-- Witness for C10 at a concrete Upload environment with no thumbnail. -/
theorem missing_thumbnail_fails_upload_cycle_witness :
    (Upload.processCurrentPlayingSong
      ⟨.ok ⟨"Song A", ["Artist X"]⟩, "true", .ok [], true, none,
       .ok (200, "resp"), true⟩).err = true ∧
    (Upload.processCurrentPlayingSong
      ⟨.ok ⟨"Song A", ["Artist X"]⟩, "true", .ok [], true, none,
       .ok (200, "resp"), true⟩).savedData = none ∧
    CycleAction.download ∈ (Upload.processCurrentPlayingSong
      ⟨.ok ⟨"Song A", ["Artist X"]⟩, "true", .ok [], true, none,
       .ok (200, "resp"), true⟩).actions ∧
    CycleAction.publish ∈ (Upload.processCurrentPlayingSong
      ⟨.ok ⟨"Song A", ["Artist X"]⟩, "true", .ok [], true, none,
       .ok (200, "resp"), true⟩).actions :=
  missing_thumbnail_fails_upload_cycle.2 _ ⟨"Song A", ["Artist X"]⟩ [] "resp"
    rfl rfl rfl rfl rfl rfl rfl

namespace GoJson

theorem hexVal_hexDigit (n : Nat) (h : n < 16) :
    hexVal (hexDigit n) = some n := by
  interval_cases n <;> decide

theorem charOfCodepoint_toNat (c : Char) : charOfCodepoint c.toNat = c := by
  have hv : c.toNat.isValidChar := c.valid
  rw [charOfCodepoint, if_pos hv]
  exact Char.ofNat_toNat c

set_option maxHeartbeats 1600000 in
theorem escapeChar_spec (c : Char) (cs : List Char) :
    (escapeChar c = [c] ∧ ¬c = '"' ∧ ¬c = '\\' ∧ ¬c.toNat < 32) ∨
    (∃ tail, escapeChar c = '\\' :: tail ∧
      readEscape (tail ++ cs) = some (c, cs)) := by
  by_cases h1 : c = '"'
  · subst h1
    refine Or.inr ⟨['"'], ?_, by simp [readEscape, unescapeChar]⟩
    rw [escapeChar, if_pos rfl]
  by_cases h2 : c = '\\'
  · subst h2
    refine Or.inr ⟨['\\'], ?_, by simp [readEscape, unescapeChar]⟩
    rw [escapeChar, if_neg h1, if_pos rfl]
  by_cases h3 : c = '\n'
  · subst h3
    refine Or.inr ⟨['n'], ?_, by simp [readEscape, unescapeChar]⟩
    rw [escapeChar, if_neg h1, if_neg h2, if_pos rfl]
  by_cases h4 : c = '\x0d'
  · subst h4
    refine Or.inr ⟨['r'], ?_, by simp [readEscape, unescapeChar]⟩
    rw [escapeChar, if_neg h1, if_neg h2, if_neg h3, if_pos rfl]
  by_cases h5 : c = '\t'
  · subst h5
    refine Or.inr ⟨['t'], ?_, by simp [readEscape, unescapeChar]⟩
    rw [escapeChar, if_neg h1, if_neg h2, if_neg h3, if_neg h4, if_pos rfl]
  by_cases h6 : c.toNat < 32
  · refine Or.inr ⟨['u', '0', '0', hexDigit (c.toNat / 16),
      hexDigit (c.toNat % 16)], ?_, ?_⟩
    · rw [escapeChar, if_neg h1, if_neg h2, if_neg h3, if_neg h4, if_neg h5,
        if_pos h6]
    · have hdiv : c.toNat / 16 < 16 := by omega
      have hmod : c.toNat % 16 < 16 := by omega
      have h0 : hexVal '0' = some 0 := by decide
      simp only [List.cons_append, List.nil_append, readEscape,
        hexVal_hexDigit _ hdiv, hexVal_hexDigit _ hmod, h0]
      show some (charOfCodepoint
        (4096 * 0 + 256 * 0 + 16 * (c.toNat / 16) + c.toNat % 16), cs) =
        some (c, cs)
      have harith : 4096 * 0 + 256 * 0 + 16 * (c.toNat / 16) + c.toNat % 16
          = c.toNat := by omega
      rw [harith, charOfCodepoint_toNat]
  by_cases h7 : c = '<'
  · subst h7
    refine Or.inr ⟨['u', '0', '0', '3', 'c'], ?_,
      by simp [readEscape, hexVal, charOfCodepoint]⟩
    rw [escapeChar, if_neg h1, if_neg h2, if_neg h3, if_neg h4, if_neg h5,
      if_neg h6, if_pos rfl]
  by_cases h8 : c = '>'
  · subst h8
    refine Or.inr ⟨['u', '0', '0', '3', 'e'], ?_,
      by simp [readEscape, hexVal, charOfCodepoint]⟩
    rw [escapeChar, if_neg h1, if_neg h2, if_neg h3, if_neg h4, if_neg h5,
      if_neg h6, if_neg h7, if_pos rfl]
  by_cases h9 : c = '&'
  · subst h9
    refine Or.inr ⟨['u', '0', '0', '2', '6'], ?_,
      by simp [readEscape, hexVal, charOfCodepoint]⟩
    rw [escapeChar, if_neg h1, if_neg h2, if_neg h3, if_neg h4, if_neg h5,
      if_neg h6, if_neg h7, if_neg h8, if_pos rfl]
  by_cases h10 : c.toNat = 8232
  · refine Or.inr ⟨['u', '2', '0', '2', '8'], ?_, ?_⟩
    · rw [escapeChar, if_neg h1, if_neg h2, if_neg h3, if_neg h4, if_neg h5,
        if_neg h6, if_neg h7, if_neg h8, if_neg h9, if_pos h10]
    · have hre : readEscape ('u' :: '2' :: '0' :: '2' :: '8' :: cs) =
          some (charOfCodepoint 8232, cs) := by
        simp [readEscape, hexVal]
      rw [List.cons_append, List.cons_append, List.cons_append,
        List.cons_append, List.cons_append, List.nil_append]
      rw [hre, ← h10, charOfCodepoint_toNat]
  by_cases h11 : c.toNat = 8233
  · refine Or.inr ⟨['u', '2', '0', '2', '9'], ?_, ?_⟩
    · rw [escapeChar, if_neg h1, if_neg h2, if_neg h3, if_neg h4, if_neg h5,
        if_neg h6, if_neg h7, if_neg h8, if_neg h9, if_neg h10, if_pos h11]
    · have hre : readEscape ('u' :: '2' :: '0' :: '2' :: '9' :: cs) =
          some (charOfCodepoint 8233, cs) := by
        simp [readEscape, hexVal]
      rw [List.cons_append, List.cons_append, List.cons_append,
        List.cons_append, List.cons_append, List.nil_append]
      rw [hre, ← h11, charOfCodepoint_toNat]
  · refine Or.inl ⟨?_, h1, h2, h6⟩
    rw [escapeChar, if_neg h1, if_neg h2, if_neg h3, if_neg h4, if_neg h5,
      if_neg h6, if_neg h7, if_neg h8, if_neg h9, if_neg h10, if_neg h11]

theorem escapeChar_length_pos (c : Char) : 1 ≤ (escapeChar c).length := by
  rcases escapeChar_spec c [] with ⟨he, _, _, _⟩ | ⟨tail, he, _⟩ <;> simp [he]

theorem escapeList_length_ge (l : List Char) :
    l.length ≤ (escapeList l).length := by
  induction l with
  | nil => simp [escapeList]
  | cons c l' ih =>
    have he : escapeList (c :: l') = escapeChar c ++ escapeList l' := rfl
    rw [he]
    have := escapeChar_length_pos c
    simp only [List.length_cons, List.length_append]
    omega

theorem parseStringF_escape_step (fuel : Nat) (c : Char) (cs l r : List Char)
    (h : parseStringF fuel cs = some (l, r)) :
    parseStringF (fuel + 1) (escapeChar c ++ cs) = some (c :: l, r) := by
  rcases escapeChar_spec c cs with ⟨he, hq, hb, hctl⟩ | ⟨tail, he, hre⟩
  · rw [he]
    simp [parseStringF, hq, hb, hctl, h]
  · rw [he, List.cons_append]
    simp [parseStringF, hre, h]

theorem parseStringF_escapeList (l : List Char) :
    ∀ (fuel : Nat) (cs : List Char), l.length < fuel →
    parseStringF fuel (escapeList l ++ ('"' :: cs)) = some (l, cs) := by
  induction l with
  | nil =>
    intro fuel cs hf
    match fuel, hf with
    | fuel + 1, _ => simp [escapeList, parseStringF]
  | cons c l' ih =>
    intro fuel cs hf
    match fuel, hf with
    | fuel + 1, hf =>
      have he : escapeList (c :: l') = escapeChar c ++ escapeList l' := rfl
      rw [he, List.append_assoc]
      exact parseStringF_escape_step fuel c _ l' cs
        (ih fuel cs (by simp at hf; omega))

theorem parseStringL_escapeList (l cs : List Char) :
    parseStringL (escapeList l ++ ('"' :: cs)) = some (l, cs) := by
  have hlen := escapeList_length_ge l
  apply parseStringF_escapeList
  simp only [List.length_append, List.length_cons]
  omega

theorem skipWs_cons (c : Char) (cs : List Char) (h : isWs c = false) :
    skipWs (c :: cs) = c :: cs := by
  simp [skipWs, h]

theorem parseBoolL_encodeBool (b : Bool) (cs : List Char) :
    parseBoolL (encodeBool b ++ cs) = some (b, cs) := by
  cases b <;> rfl

theorem encodeMember_eq (p : String × Bool) (X : List Char) :
    encodeMember p ++ X =
      '"' :: (escapeList p.1.data ++
        ('"' :: (':' :: (encodeBool p.2 ++ X)))) := by
  simp [encodeMember, encodeString]

theorem parseMembers_encode (l : List (String × Bool)) :
    ∀ (p : String × Bool) (fuel : Nat) (cs : List Char), l.length < fuel →
    parseMembers fuel (encodeMembers (p :: l) ++ ('}' :: cs)) =
      some (p :: l, cs) := by
  induction l with
  | nil =>
    intro p fuel cs hf
    match fuel, hf with
    | fuel + 1, _ =>
      have he : encodeMembers [p] = encodeMember p := rfl
      rw [he, encodeMember_eq]
      simp only [parseMembers]
      rw [parseStringL_escapeList]
      simp only
      rw [skipWs_cons ':' _ (by decide)]
      simp only
      have hb : ∀ X : List Char, skipWs (encodeBool p.2 ++ X) =
          encodeBool p.2 ++ X := by
        intro X
        cases hcb : p.2 <;> simp [encodeBool] <;>
          rw [skipWs_cons _ _ (by decide)]
      rw [hb, parseBoolL_encodeBool]
      simp only
      rw [skipWs_cons '}' _ (by decide)]
      rfl
  | cons q l' ih =>
    intro p fuel cs hf
    match fuel, hf with
    | fuel + 1, hf =>
      have he : encodeMembers (p :: q :: l') =
          encodeMember p ++ (',' :: encodeMembers (q :: l')) := rfl
      rw [he, List.append_assoc, List.cons_append, encodeMember_eq]
      simp only [parseMembers]
      rw [parseStringL_escapeList]
      simp only
      rw [skipWs_cons ':' _ (by decide)]
      simp only
      have hb : ∀ X : List Char, skipWs (encodeBool p.2 ++ X) =
          encodeBool p.2 ++ X := by
        intro X
        cases hcb : p.2 <;> simp [encodeBool] <;>
          rw [skipWs_cons _ _ (by decide)]
      rw [hb, parseBoolL_encodeBool]
      simp only
      rw [skipWs_cons ',' _ (by decide)]
      simp only
      have hq : ∃ Y, encodeMembers (q :: l') ++ ('}' :: cs) = '"' :: Y := by
        cases l' with
        | nil =>
          have h1 : encodeMembers [q] = encodeMember q := rfl
          rw [h1, encodeMember_eq]
          exact ⟨_, rfl⟩
        | cons a as =>
          have h1 : encodeMembers (q :: a :: as) =
              encodeMember q ++ (',' :: encodeMembers (a :: as)) := rfl
          rw [h1, List.append_assoc, List.cons_append, encodeMember_eq]
          exact ⟨_, rfl⟩
      rcases hq with ⟨Y, hY⟩
      rw [hY, skipWs_cons '"' _ (by decide), ← hY]
      have hlen : l'.length < fuel := by simp at hf; omega
      rw [ih q fuel cs hlen]

theorem encodeMember_length_pos (p : String × Bool) :
    1 ≤ (encodeMember p).length := by
  rw [encodeMember, encodeString]
  simp

theorem encodeMembers_length_ge (l : List (String × Bool)) :
    l.length ≤ (encodeMembers l).length := by
  induction l with
  | nil => simp [encodeMembers]
  | cons p rest ih =>
    cases rest with
    | nil =>
      have h1 : encodeMembers [p] = encodeMember p := rfl
      rw [h1]
      simpa using encodeMember_length_pos p
    | cons a as =>
      have h1 : encodeMembers (p :: a :: as) =
          encodeMember p ++ (',' :: encodeMembers (a :: as)) := rfl
      rw [h1]
      have h2 := encodeMember_length_pos p
      simp only [List.length_cons, List.length_append]
      simp only [List.length_cons] at ih
      omega

theorem parseObject_encodeHistory (m : List (String × Bool)) (fuel : Nat)
    (hf : (sortKeys m).length < fuel) :
    parseObject fuel (encodeHistory m) = some (sortKeys m, ['\n']) := by
  rw [encodeHistory]
  cases hs : sortKeys m with
  | nil =>
    match fuel, hf with
    | fuel + 1, _ => rfl
  | cons p l =>
    rw [parseObject, skipWs_cons '{' _ (by decide)]
    have hq : ∃ Y, encodeMembers (p :: l) ++ ['}', '\n'] = '"' :: Y := by
      cases l with
      | nil =>
        have h1 : encodeMembers [p] = encodeMember p := rfl
        rw [h1, encodeMember_eq]
        exact ⟨_, rfl⟩
      | cons a as =>
        have h1 : encodeMembers (p :: a :: as) =
            encodeMember p ++ (',' :: encodeMembers (a :: as)) := rfl
        rw [h1, List.append_assoc, List.cons_append, encodeMember_eq]
        exact ⟨_, rfl⟩
    rcases hq with ⟨Y, hY⟩
    show (match skipWs (encodeMembers (p :: l) ++ ['}', '\n']) with
      | '}' :: cs2 => some ([], cs2)
      | cs2 => parseMembers fuel cs2) = some (p :: l, ['\n'])
    rw [hY, skipWs_cons '"' _ (by decide)]
    show parseMembers fuel ('"' :: Y) = some (p :: l, ['\n'])
    rw [← hY]
    exact parseMembers_encode l p fuel ['\n']
      (by rw [hs] at hf; simp at hf; omega)

theorem decodeObject_encodeHistory (m : List (String × Bool)) :
    decodeObject (encodeHistory m) = some (sortKeys m, ['\n']) := by
  rw [decodeObject]
  apply parseObject_encodeHistory
  have h1 := encodeMembers_length_ge (sortKeys m)
  rw [encodeHistory]
  simp only [List.length_cons, List.length_append]
  omega

theorem insertSorted_perm (p : String × Bool) (l : List (String × Bool)) :
    List.Perm (insertSorted p l) (p :: l) := by
  induction l with
  | nil => rfl
  | cons q rest ih =>
    by_cases h : strLe p.1 q.1
    · simp [insertSorted, h]
    · simp only [insertSorted, h, if_false, Bool.false_eq_true]
      exact ((ih.cons q).trans (List.Perm.swap p q rest))

theorem sortKeys_perm (l : List (String × Bool)) :
    List.Perm (sortKeys l) l := by
  induction l with
  | nil => rfl
  | cons p rest ih =>
    exact (insertSorted_perm p (sortKeys rest)).trans (ih.cons p)

end GoJson

theorem histSet_append_of_not_mem (acc : TrackHistory) (k : String)
    (v : Bool) (h : ∀ q ∈ acc, q.1 ≠ k) :
    histSet acc k v = acc ++ [(k, v)] := by
  induction acc with
  | nil => rfl
  | cons q rest ih =>
    have hq : q.1 ≠ k := h q (by simp)
    simp only [histSet, hq, if_false]
    rw [ih (fun r hr => h r (by simp [hr]))]
    rfl

theorem foldl_histSet_eq_append (l : TrackHistory) :
    ∀ acc : TrackHistory,
    (l.map Prod.fst).Nodup →
    (∀ p ∈ l, ∀ q ∈ acc, q.1 ≠ p.1) →
    l.foldl (fun m p => histSet m p.1 p.2) acc = acc ++ l := by
  induction l with
  | nil => intro acc _ _; simp
  | cons p rest ih =>
    intro acc hnd hdisj
    simp only [List.foldl_cons]
    rw [histSet_append_of_not_mem acc p.1 p.2
      (fun q hq => hdisj p (by simp) q hq)]
    have hnd' : (rest.map Prod.fst).Nodup := by
      simp only [List.map_cons, List.nodup_cons] at hnd
      exact hnd.2
    have hdisj' : ∀ r ∈ rest, ∀ q ∈ acc ++ [(p.1, p.2)], q.1 ≠ r.1 := by
      intro r hr q hq
      rcases List.mem_append.mp hq with hq1 | hq2
      · exact hdisj r (by simp [hr]) q hq1
      · simp only [List.mem_singleton] at hq2
        subst hq2
        simp only [List.map_cons, List.nodup_cons] at hnd
        intro hcontra
        exact hnd.1 (hcontra ▸ List.mem_map_of_mem Prod.fst hr)
    rw [ih (acc ++ [(p.1, p.2)]) hnd' hdisj']
    simp

theorem histGet_eq_decide_mem (l : TrackHistory) (k : String)
    (hnd : (l.map Prod.fst).Nodup) :
    histGet l k = decide ((k, true) ∈ l) := by
  induction l with
  | nil => simp [histGet]
  | cons p rest ih =>
    simp only [List.map_cons, List.nodup_cons] at hnd
    by_cases hp : p.1 = k
    · obtain ⟨p1, p2⟩ := p
      simp only at hp
      subst hp
      have hnotin : (p1, true) ∉ rest := by
        intro hmem
        have hk : (p1, true).1 ∈ rest.map Prod.fst :=
          List.mem_map_of_mem Prod.fst hmem
        exact hnd.1 hk
      cases p2 <;> simp [histGet, hnotin, List.mem_cons]
    · simp only [histGet, hp, if_false]
      rw [ih hnd.2]
      have : ((k, true) ∈ p :: rest) ↔ ((k, true) ∈ rest) := by
        constructor
        · intro hmem
          rcases List.mem_cons.mp hmem with he | hm
          · exact absurd (congrArg Prod.fst he).symm hp
          · exact hm
        · intro hm; exact List.mem_cons_of_mem _ hm
      simp [this]

theorem histGet_of_perm (l1 l2 : TrackHistory)
    (hperm : List.Perm l1 l2) (hnd : (l1.map Prod.fst).Nodup) (k : String) :
    histGet l1 k = histGet l2 k := by
  have hnd2 : (l2.map Prod.fst).Nodup :=
    ((hperm.map Prod.fst).nodup_iff).mp hnd
  rw [histGet_eq_decide_mem l1 k hnd, histGet_eq_decide_mem l2 k hnd2]
  simp [hperm.mem_iff]

/-- C5: saving a mapping (whose keys are unique, as for every Go map) and
loading it back from the same path yields an equal mapping: the load
succeeds with the key-sorted member list the encoder wrote, and that list
agrees with the original mapping on the value of every key. -/
theorem save_load_roundtrip (m : TrackHistory)
    (hnd : (m.map Prod.fst).Nodup) :
    loadTrackHistory (some (saveTrackHistory m)) = .ok (GoJson.sortKeys m) ∧
    ∀ k, histGet (GoJson.sortKeys m) k = histGet m k := by
  have hperm := GoJson.sortKeys_perm m
  have hnds : ((GoJson.sortKeys m).map Prod.fst).Nodup :=
    ((hperm.map Prod.fst).nodup_iff).mpr hnd
  constructor
  · simp only [loadTrackHistory, saveTrackHistory]
    rw [if_neg ?hne]
    case hne =>
      rw [GoJson.encodeHistory, GoJson.skipWs_cons '{' _ (by decide)]
      simp
    rw [GoJson.decodeObject_encodeHistory]
    simp only
    rw [foldl_histSet_eq_append (GoJson.sortKeys m) [] hnds (by simp)]
    rfl
  · intro k
    exact histGet_of_perm _ _ hperm hnds k

/-- Witness for C5 at a concrete two-entry mapping. -/
theorem save_load_roundtrip_witness :
    loadTrackHistory (some (saveTrackHistory
      [("Song A - Artist X", true), ("B", false)])) =
      .ok (GoJson.sortKeys [("Song A - Artist X", true), ("B", false)]) ∧
    histGet (GoJson.sortKeys [("Song A - Artist X", true), ("B", false)]) "B" =
      histGet [("Song A - Artist X", true), ("B", false)] "B" :=
  ⟨(save_load_roundtrip _ (by decide)).1,
   (save_load_roundtrip _ (by decide)).2 "B"⟩

/-- C6: loading the history from a missing file yields the empty mapping
and no error; content whose decoding stops at true end-of-input (only
whitespace before the first token, in particular an empty file) is likewise
tolerated, yielding the empty mapping; any other decode failure makes the
load return an error. -/
theorem load_missing_and_malformed :
    loadTrackHistory none = .ok [] ∧
    (∀ cs, GoJson.skipWs cs = [] → loadTrackHistory (some cs) = .ok []) ∧
    (∀ cs, GoJson.skipWs cs ≠ [] → GoJson.decodeObject cs = none →
      loadTrackHistory (some cs) = .error "error decoding JSON") := by
  refine ⟨rfl, ?_, ?_⟩
  · intro cs h
    simp only [loadTrackHistory]
    rw [if_pos h]
  · intro cs h1 h2
    simp only [loadTrackHistory]
    rw [if_neg h1, h2]

/-- Witness for C6: a missing file and an empty file load as the empty
mapping, and a malformed file is an error. -/
theorem load_missing_and_malformed_witness :
    loadTrackHistory none = .ok [] ∧
    loadTrackHistory (some [' ']) = .ok [] ∧
    loadTrackHistory (some ['x']) = .error "error decoding JSON" :=
  ⟨load_missing_and_malformed.1,
   load_missing_and_malformed.2.1 [' '] (by decide),
   load_missing_and_malformed.2.2 ['x'] (by decide) (by decide)⟩
